import Mathlib

/-!
# Shallow embedding of the in-memory bank (`src/impl.ts`)

The TypeScript source defines three collaborating classes: `BankImpl` (a
registry of accounts plus a running aggregate `totalBalance`), `AccountImpl`
(a named balance holder whose mutating methods notify the bank), and
`ManagerImpl` (a read-only facade over the aggregate).  We embed them as pure
Lean functions over explicit state.

Modelling decisions:
* JavaScript `number` is idealised as `ℚ` (exact arithmetic) for the state
  model.  The validation helper is additionally modelled over `JSNum`, a type
  that also carries the non-finite IEEE-754 values `NaN`, `+∞`, `-∞`, because
  one claim is specifically about how `amount <= 0` behaves on those.
* The `Map<string, AccountImpl>` registry is an association list with at most
  one entry per key (the only insertion point, `createAccount`, first checks
  `has`).  JS `Map` iteration order is insertion order, which the list keeps.
* Each `AccountImpl` object is stored under exactly one registry key, so an
  account handle is identified by that key; mutation of the object is mutation
  of its registry entry.  Sequential entry updates reproduce the aliasing in
  `transfer` when the recipient reference is the sender itself.
* `throw` / exception propagation is `Except BankError`; every method mutates
  state only by returning the updated state in the `.ok` branch, mirroring the
  source, where every `throw` happens before the first field assignment.
-/

/-- The error classes of `src/errors.ts`. -/
inductive BankError where
  | invalidAmount
  | insufficientBalance
  | missingAccount
  | invalidName
  | nameAlreadyExists
deriving DecidableEq, Repr

/-- White-space characters stripped by JavaScript `String.prototype.trim`
(the ASCII subset, which is all the repository ever passes). -/
def isJsWhitespace (c : Char) : Bool :=
  c = ' ' || c = '\t' || c = '\n' || c = '\r' || c = '\x0b' || c = '\x0c'

/-- Model of JavaScript `s.trim()`: drop leading and trailing whitespace. -/
def jsTrim (s : String) : String :=
  ⟨((s.data.dropWhile fun c => isJsWhitespace c).reverse.dropWhile
      fun c => isJsWhitespace c).reverse⟩

/-- `validateAmount` from `impl.ts`: `if (amount <= 0) throw new
InvalidAmountError()`, over the idealised finite amounts. -/
def validateAmount (amount : ℚ) : Except BankError Unit :=
  if amount ≤ 0 then .error .invalidAmount else .ok ()

/-- A JavaScript `number` including the non-finite values: `NaN`, the two
infinities, or a finite value (idealised as a rational). -/
inductive JSNum where
  | nan
  | posInf
  | negInf
  | finite (q : ℚ)
deriving DecidableEq

/-- The test `x <= 0` under IEEE-754 comparison semantics: any comparison
with `NaN` is `false`; `+∞ <= 0` is `false`; `-∞ <= 0` is `true`. -/
def JSNum.leZero : JSNum → Bool
  | .nan => false
  | .posInf => false
  | .negInf => true
  | .finite q => decide (q ≤ 0)

/-- `validateAmount` over full JS numbers: `if (amount <= 0) throw new
InvalidAmountError()` with the IEEE-754 comparison. -/
def validateAmountNum (x : JSNum) : Except BankError Unit :=
  if x.leZero then .error .invalidAmount else .ok ()

/-- The fields of `AccountImpl` (the back-reference to the bank is implicit:
an account is addressed through the bank state it lives in). -/
structure AccountImpl where
  name : String
  balance : ℚ
deriving DecidableEq, Repr

/-- The fields of `BankImpl`: the account registry and the running total. -/
structure BankImpl where
  accounts : List (String × AccountImpl)
  totalBalance : ℚ
deriving DecidableEq, Repr

/-- The `AccountImpl` constructor: `validateAmount(balance)`, then
`this.name = name.trim()`, then `if (name.length === 0) throw new
InvalidNameError(...)`.  Note that the emptiness check reads the *untrimmed*
`name`, exactly as the source does. -/
def AccountImpl.make (name : String) (balance : ℚ) : Except BankError AccountImpl :=
  match validateAmount balance with
  | .error e => .error e
  | .ok _ =>
    if name.length = 0 then .error .invalidName
    else .ok { name := jsTrim name, balance := balance }

/-- `BankImpl.getTotalBalance`. -/
def BankImpl.getTotalBalance (b : BankImpl) : ℚ := b.totalBalance

/-- `BankImpl.deposit`: the aggregate update `this.totalBalance += amount`,
called by `AccountImpl.deposit` after the local mutation. -/
def BankImpl.deposit (b : BankImpl) (amount : ℚ) : BankImpl :=
  { b with totalBalance := b.totalBalance + amount }

/-- `BankImpl.withdraw`: the aggregate update `this.totalBalance -= amount`. -/
def BankImpl.withdraw (b : BankImpl) (amount : ℚ) : BankImpl :=
  { b with totalBalance := b.totalBalance - amount }

/-- `BankImpl.getAccountByName`: `Map.get`, throwing `MissingAccountError`
when absent. -/
def BankImpl.getAccountByName (b : BankImpl) (name : String) :
    Except BankError AccountImpl :=
  match b.accounts.lookup name with
  | some account => .ok account
  | none => .error .missingAccount

/-- `BankImpl.createAccount`: validate the opening balance, reject a name the
registry already `has` (the check and the `Map.set` key are the *untrimmed*
`name`), construct the account, persist it, and add the balance to the
total.  Returns the updated bank together with the new account handle. -/
def BankImpl.createAccount (b : BankImpl) (name : String) (balance : ℚ) :
    Except BankError (BankImpl × AccountImpl) :=
  match validateAmount balance with
  | .error e => .error e
  | .ok _ =>
    if (b.accounts.lookup name).isSome then .error .nameAlreadyExists
    else
      match AccountImpl.make name balance with
      | .error e => .error e
      | .ok account =>
        .ok ({ accounts := b.accounts ++ [(name, account)],
               totalBalance := b.totalBalance + balance }, account)

/-- The local part of `AccountImpl.deposit`: validation plus
`this.balance += amount` (the aggregate notification is composed in
`doDeposit`). -/
def AccountImpl.deposit (a : AccountImpl) (amount : ℚ) :
    Except BankError AccountImpl :=
  match validateAmount amount with
  | .error e => .error e
  | .ok _ => .ok { a with balance := a.balance + amount }

/-- The local part of `AccountImpl.withdraw`: validation, the sufficiency
check `if (this.balance < amount) throw`, then `this.balance -= amount`. -/
def AccountImpl.withdraw (a : AccountImpl) (amount : ℚ) :
    Except BankError AccountImpl :=
  match validateAmount amount with
  | .error e => .error e
  | .ok _ =>
    if a.balance < amount then .error .insufficientBalance
    else .ok { a with balance := a.balance - amount }

/-- `AccountImpl.receiveTransfer`: `this.balance += amount`, no validation. -/
def AccountImpl.receiveTransfer (a : AccountImpl) (amount : ℚ) : AccountImpl :=
  { a with balance := a.balance + amount }

/-- Replace the value of the first registry entry with the given key
(a JS `Map` holds exactly one entry per key). -/
def modifyAt (accounts : List (String × AccountImpl)) (key : String)
    (f : AccountImpl → AccountImpl) : List (String × AccountImpl) :=
  match accounts with
  | [] => []
  | (k, a) :: rest =>
    if k == key then (k, f a) :: rest else (k, a) :: modifyAt rest key f

/-- `AccountImpl.deposit` observed on the whole bank state: the account
handle the caller holds is the registry entry at `key`.  On success the entry
is replaced by the deposited account and the bank aggregate is notified. -/
def doDeposit (b : BankImpl) (key : String) (amount : ℚ) :
    Except BankError BankImpl :=
  match b.accounts.lookup key with
  | none => .error .missingAccount
  | some account =>
    match account.deposit amount with
    | .error e => .error e
    | .ok account' =>
      .ok (BankImpl.deposit
        { b with accounts := modifyAt b.accounts key fun _ => account' } amount)

/-- `AccountImpl.withdraw` observed on the whole bank state. -/
def doWithdraw (b : BankImpl) (key : String) (amount : ℚ) :
    Except BankError BankImpl :=
  match b.accounts.lookup key with
  | none => .error .missingAccount
  | some account =>
    match account.withdraw amount with
    | .error e => .error e
    | .ok account' =>
      .ok (BankImpl.withdraw
        { b with accounts := modifyAt b.accounts key fun _ => account' } amount)

/-- The mutation phase of `AccountImpl.transfer`: `this.balance -= amount`
followed by `recipientAccount.receiveTransfer(amount)`.  The two entry
updates are sequential, so a recipient reference aliasing the sender nets to
no change, as in the source. -/
def transferAccounts (accounts : List (String × AccountImpl))
    (senderKey recipient : String) (amount : ℚ) : List (String × AccountImpl) :=
  modifyAt
    (modifyAt accounts senderKey fun s => { s with balance := s.balance - amount })
    recipient fun r => r.receiveTransfer amount

/-- `AccountImpl.transfer` observed on the whole bank state: validate, check
sufficiency, no-op when `this.name === recipient` (the stored, trimmed name
against the raw recipient string), resolve the recipient through the bank
(throwing `MissingAccountError`), then apply the mutation phase.  The
aggregate is deliberately not notified. -/
def doTransfer (b : BankImpl) (senderKey recipient : String) (amount : ℚ) :
    Except BankError BankImpl :=
  match b.accounts.lookup senderKey with
  | none => .error .missingAccount
  | some sender =>
    match validateAmount amount with
    | .error e => .error e
    | .ok _ =>
      if sender.balance < amount then .error .insufficientBalance
      else if sender.name = recipient then .ok b
      else
        match b.getAccountByName recipient with
        | .error e => .error e
        | .ok _ =>
          .ok { b with accounts := transferAccounts b.accounts senderKey recipient amount }

/-- `ManagerImpl.getTotalBankBalance`: delegates to the bank. -/
def ManagerImpl.getTotalBankBalance (b : BankImpl) : ℚ := b.getTotalBalance

/-- The bank produced by `createBank()`: empty registry, zero total. -/
def initBank : BankImpl := { accounts := [], totalBalance := 0 }

/-- One caller-visible operation on a bank, an account handle being named by
its registry key. -/
inductive Op where
  | create (name : String) (balance : ℚ)
  | deposit (key : String) (amount : ℚ)
  | withdraw (key : String) (amount : ℚ)
  | transfer (key recipient : String) (amount : ℚ)

/-- `createAccount` observed on the bank state alone (the returned handle is
the registry entry at the untrimmed name). -/
def doCreate (b : BankImpl) (name : String) (balance : ℚ) :
    Except BankError BankImpl :=
  match b.createAccount name balance with
  | .error e => .error e
  | .ok (b', _) => .ok b'

/-- Run one operation. -/
def step (b : BankImpl) : Op → Except BankError BankImpl
  | .create name balance => doCreate b name balance
  | .deposit key amount => doDeposit b key amount
  | .withdraw key amount => doWithdraw b key amount
  | .transfer key recipient amount => doTransfer b key recipient amount

/-- Run a sequence of operations, requiring every one to succeed. -/
def run (b : BankImpl) : List Op → Except BankError BankImpl
  | [] => .ok b
  | op :: ops =>
    match step b op with
    | .error e => .error e
    | .ok b' => run b' ops

/-- Run a sequence of operations where a failing operation leaves the state
as it was (exceptions in the source are thrown before any mutation). -/
def runSkip (b : BankImpl) : List Op → BankImpl
  | [] => b
  | op :: ops =>
    match step b op with
    | .ok b' => runSkip b' ops
    | .error _ => runSkip b ops

/-- Sum of all account balances in a registry. -/
def sumBal (accounts : List (String × AccountImpl)) : ℚ :=
  (accounts.map fun p => p.2.balance).sum

/-- The aggregate invariant: the running total equals the sum of balances. -/
def TotalInv (b : BankImpl) : Prop := b.totalBalance = sumBal b.accounts

/-- The non-negativity invariant: every registered balance is `≥ 0`. -/
def NonNegInv (b : BankImpl) : Prop := ∀ p ∈ b.accounts, 0 ≤ p.2.balance

/-! ## Basic lemmas about validation, lookup, and registry updates -/

theorem validateAmount_of_pos {q : ℚ} (h : 0 < q) : validateAmount q = .ok () := by
  unfold validateAmount
  rw [if_neg (not_le.mpr h)]

theorem pos_of_validateAmount {q : ℚ} {u : Unit} (h : validateAmount q = .ok u) :
    0 < q := by
  unfold validateAmount at h
  by_cases hq : q ≤ 0
  · rw [if_pos hq] at h
    exact absurd h (by simp)
  · exact not_le.mp hq

theorem lookup_modifyAt_self {l : List (String × AccountImpl)} {k : String}
    {a : AccountImpl} (f : AccountImpl → AccountImpl) (h : l.lookup k = some a) :
    (modifyAt l k f).lookup k = some (f a) := by
  induction l with
  | nil => simp [List.lookup] at h
  | cons p rest ih =>
    obtain ⟨k₁, a₁⟩ := p
    by_cases heq : k₁ = k
    · subst heq
      simp only [List.lookup, beq_self_eq_true] at h ⊢
      cases h
      simp only [modifyAt, beq_self_eq_true, if_true, List.lookup]
    · have h1 : (k₁ == k) = false := beq_eq_false_iff_ne.mpr heq
      have h2 : (k == k₁) = false := beq_eq_false_iff_ne.mpr (Ne.symm heq)
      simp only [List.lookup, h2] at h
      simp only [modifyAt, h1, Bool.false_eq_true, if_false, List.lookup, h2]
      exact ih h

theorem lookup_modifyAt_ne {l : List (String × AccountImpl)} {k k' : String}
    (f : AccountImpl → AccountImpl) (h : k' ≠ k) :
    (modifyAt l k f).lookup k' = l.lookup k' := by
  induction l with
  | nil => simp [modifyAt]
  | cons p rest ih =>
    obtain ⟨k₁, a₁⟩ := p
    by_cases heq : k₁ = k
    · subst heq
      have h2 : (k' == k₁) = false := beq_eq_false_iff_ne.mpr h
      simp only [modifyAt, beq_self_eq_true, if_true, List.lookup, h2]
    · have h1 : (k₁ == k) = false := beq_eq_false_iff_ne.mpr heq
      simp only [modifyAt, h1, Bool.false_eq_true, if_false, List.lookup]
      by_cases heq' : k' = k₁
      · subst heq'
        simp only [beq_self_eq_true]
      · have h2 : (k' == k₁) = false := beq_eq_false_iff_ne.mpr heq'
        simp only [h2]
        exact ih

theorem sumBal_nil : sumBal [] = 0 := rfl

theorem sumBal_cons (p : String × AccountImpl) (l : List (String × AccountImpl)) :
    sumBal (p :: l) = p.2.balance + sumBal l := by
  simp [sumBal]

theorem sumBal_append_single (l : List (String × AccountImpl)) (n : String)
    (a : AccountImpl) : sumBal (l ++ [(n, a)]) = sumBal l + a.balance := by
  simp [sumBal]

theorem sumBal_modifyAt {l : List (String × AccountImpl)} {k : String}
    {a : AccountImpl} (f : AccountImpl → AccountImpl) (h : l.lookup k = some a) :
    sumBal (modifyAt l k f) = sumBal l - a.balance + (f a).balance := by
  induction l with
  | nil => simp [List.lookup] at h
  | cons p rest ih =>
    obtain ⟨k₁, a₁⟩ := p
    by_cases heq : k₁ = k
    · subst heq
      simp only [List.lookup, beq_self_eq_true] at h
      cases h
      simp only [modifyAt, beq_self_eq_true, if_true]
      rw [sumBal_cons, sumBal_cons]
      ring
    · have h1 : (k₁ == k) = false := beq_eq_false_iff_ne.mpr heq
      have h2 : (k == k₁) = false := beq_eq_false_iff_ne.mpr (Ne.symm heq)
      simp only [List.lookup, h2] at h
      simp only [modifyAt, h1, Bool.false_eq_true, if_false]
      rw [sumBal_cons, sumBal_cons, ih h]
      ring

theorem mem_modifyAt {l : List (String × AccountImpl)} {k : String}
    {f : AccountImpl → AccountImpl} {p : String × AccountImpl}
    (h : p ∈ modifyAt l k f) :
    p ∈ l ∨ ∃ a, l.lookup k = some a ∧ p = (k, f a) := by
  induction l with
  | nil => simp [modifyAt] at h
  | cons q rest ih =>
    obtain ⟨k₁, a₁⟩ := q
    by_cases heq : k₁ = k
    · subst heq
      simp only [modifyAt, beq_self_eq_true, if_true, List.mem_cons] at h
      rcases h with h | h
      · exact Or.inr ⟨a₁, by simp [List.lookup], h⟩
      · exact Or.inl (List.mem_cons_of_mem _ h)
    · have h1 : (k₁ == k) = false := beq_eq_false_iff_ne.mpr heq
      have h2 : (k == k₁) = false := beq_eq_false_iff_ne.mpr (Ne.symm heq)
      simp only [modifyAt, h1, Bool.false_eq_true, if_false, List.mem_cons] at h
      rcases h with h | h
      · exact Or.inl (by simp [h])
      · rcases ih h with h' | ⟨a, ha, hp⟩
        · exact Or.inl (List.mem_cons_of_mem _ h')
        · refine Or.inr ⟨a, ?_, hp⟩
          simpa only [List.lookup, h2] using ha

/-! ## Inversion lemmas: what a successful operation tells us -/

theorem make_ok {name : String} {balance : ℚ} {acct : AccountImpl}
    (h : AccountImpl.make name balance = .ok acct) :
    0 < balance ∧ name.length ≠ 0 ∧
      acct = { name := jsTrim name, balance := balance } := by
  unfold AccountImpl.make at h
  split at h
  · cases h
  next u hv =>
    split at h
    · cases h
    next hn =>
      cases h
      exact ⟨pos_of_validateAmount hv, hn, rfl⟩

theorem getAccountByName_ok {b : BankImpl} {name : String} {a : AccountImpl}
    (h : b.getAccountByName name = .ok a) : b.accounts.lookup name = some a := by
  unfold BankImpl.getAccountByName at h
  split at h
  next account heq =>
    cases h
    exact heq
  · cases h

theorem createAccount_ok {b b' : BankImpl} {name : String} {balance : ℚ}
    {acct : AccountImpl}
    (h : b.createAccount name balance = .ok (b', acct)) :
    0 < balance ∧ b.accounts.lookup name = none ∧ name.length ≠ 0 ∧
      acct = { name := jsTrim name, balance := balance } ∧
      b' = { accounts := b.accounts ++ [(name, acct)],
             totalBalance := b.totalBalance + balance } := by
  unfold BankImpl.createAccount at h
  split at h
  · cases h
  next u hv =>
    split at h
    · cases h
    next hs =>
      split at h
      · cases h
      next account hm =>
        cases h
        obtain ⟨hpos, hn, hacct⟩ := make_ok hm
        refine ⟨hpos, ?_, hn, hacct, rfl⟩
        cases ho : b.accounts.lookup name
        · rfl
        · rw [ho] at hs
          simp at hs

theorem doDeposit_ok {b b' : BankImpl} {key : String} {amount : ℚ}
    (h : doDeposit b key amount = .ok b') :
    ∃ a, b.accounts.lookup key = some a ∧ 0 < amount ∧
      b' = { accounts :=
               modifyAt b.accounts key fun _ => { a with balance := a.balance + amount },
             totalBalance := b.totalBalance + amount } := by
  unfold doDeposit at h
  split at h
  · cases h
  next a ha =>
    split at h
    · cases h
    next a' hd =>
      cases h
      unfold AccountImpl.deposit at hd
      split at hd
      · cases hd
      next u hv =>
        cases hd
        exact ⟨a, ha, pos_of_validateAmount hv, rfl⟩

theorem doWithdraw_ok {b b' : BankImpl} {key : String} {amount : ℚ}
    (h : doWithdraw b key amount = .ok b') :
    ∃ a, b.accounts.lookup key = some a ∧ 0 < amount ∧ amount ≤ a.balance ∧
      b' = { accounts :=
               modifyAt b.accounts key fun _ => { a with balance := a.balance - amount },
             totalBalance := b.totalBalance - amount } := by
  unfold doWithdraw at h
  split at h
  · cases h
  next a ha =>
    split at h
    · cases h
    next a' hd =>
      cases h
      unfold AccountImpl.withdraw at hd
      split at hd
      · cases hd
      next u hv =>
        split at hd
        · cases hd
        next hins =>
          cases hd
          exact ⟨a, ha, pos_of_validateAmount hv, not_lt.mp hins, rfl⟩

theorem doTransfer_ok {b b' : BankImpl} {senderKey recipient : String} {amount : ℚ}
    (h : doTransfer b senderKey recipient amount = .ok b') :
    ∃ sender, b.accounts.lookup senderKey = some sender ∧ 0 < amount ∧
      amount ≤ sender.balance ∧
      ((sender.name = recipient ∧ b' = b) ∨
       (sender.name ≠ recipient ∧ (b.accounts.lookup recipient).isSome ∧
        b' = { b with
               accounts := transferAccounts b.accounts senderKey recipient amount })) := by
  unfold doTransfer at h
  split at h
  · cases h
  next sender hs =>
    split at h
    · cases h
    next u hv =>
      split at h
      · cases h
      next hins =>
        split at h
        next hname =>
          cases h
          exact ⟨sender, hs, pos_of_validateAmount hv, not_lt.mp hins,
            Or.inl ⟨hname, rfl⟩⟩
        next hname =>
          split at h
          · cases h
          next racct hr =>
            cases h
            refine ⟨sender, hs, pos_of_validateAmount hv, not_lt.mp hins,
              Or.inr ⟨hname, ?_, rfl⟩⟩
            rw [getAccountByName_ok hr]
            rfl

/-! ## Preservation of the aggregate and the non-negativity invariants -/

theorem mem_of_lookup {l : List (String × AccountImpl)} {k : String}
    {a : AccountImpl} (h : l.lookup k = some a) : (k, a) ∈ l := by
  induction l with
  | nil => simp [List.lookup] at h
  | cons p rest ih =>
    obtain ⟨k₁, a₁⟩ := p
    by_cases heq : k₁ = k
    · subst heq
      simp only [List.lookup, beq_self_eq_true] at h
      cases h
      exact List.mem_cons_self _ _
    · have h2 : (k == k₁) = false := beq_eq_false_iff_ne.mpr (Ne.symm heq)
      simp only [List.lookup, h2] at h
      exact List.mem_cons_of_mem _ (ih h)

theorem sumBal_transferAccounts {l : List (String × AccountImpl)} {s r : String}
    {sender : AccountImpl} (amount : ℚ) (hs : l.lookup s = some sender)
    (hr : (l.lookup r).isSome) :
    sumBal (transferAccounts l s r amount) = sumBal l := by
  unfold transferAccounts
  by_cases hrs : r = s
  · subst hrs
    rw [sumBal_modifyAt _ (lookup_modifyAt_self _ hs), sumBal_modifyAt _ hs]
    simp only [AccountImpl.receiveTransfer]
    ring
  · obtain ⟨racct, hra⟩ := Option.isSome_iff_exists.mp hr
    have hmid : (modifyAt l s fun a => { a with balance := a.balance - amount }).lookup r
        = some racct := by
      rw [lookup_modifyAt_ne _ hrs]
      exact hra
    rw [sumBal_modifyAt _ hmid, sumBal_modifyAt _ hs]
    simp only [AccountImpl.receiveTransfer]
    ring

theorem step_total {b b' : BankImpl} {op : Op} (h : step b op = .ok b')
    (hb : TotalInv b) : TotalInv b' := by
  unfold TotalInv at hb ⊢
  cases op with
  | create name balance =>
    simp only [step] at h
    unfold doCreate at h
    split at h
    · cases h
    next b'' acct hc =>
      cases h
      obtain ⟨hpos, hnone, hn, hacct, hb'⟩ := createAccount_ok hc
      subst hb' hacct
      rw [sumBal_append_single]
      simp [hb]
  | deposit key amount =>
    simp only [step] at h
    obtain ⟨a, ha, hpos, hb'⟩ := doDeposit_ok h
    subst hb'
    simp only []
    rw [sumBal_modifyAt _ ha]
    simp only []
    rw [hb]
    ring
  | withdraw key amount =>
    simp only [step] at h
    obtain ⟨a, ha, hpos, hsuf, hb'⟩ := doWithdraw_ok h
    subst hb'
    simp only []
    rw [sumBal_modifyAt _ ha]
    simp only []
    rw [hb]
    ring
  | transfer key recipient amount =>
    simp only [step] at h
    obtain ⟨sender, hs, hpos, hsuf, hcase⟩ := doTransfer_ok h
    rcases hcase with ⟨hname, rfl⟩ | ⟨hname, hrsome, hb'⟩
    · exact hb
    · subst hb'
      simp only []
      rw [sumBal_transferAccounts amount hs hrsome]
      exact hb

theorem run_total {ops : List Op} {b b' : BankImpl} (h : run b ops = .ok b')
    (hb : TotalInv b) : TotalInv b' := by
  induction ops generalizing b with
  | nil =>
    unfold run at h
    cases h
    exact hb
  | cons op ops ih =>
    unfold run at h
    split at h
    · cases h
    next b₁ h₁ => exact ih h (step_total h₁ hb)

theorem step_nonneg {b b' : BankImpl} {op : Op} (h : step b op = .ok b')
    (hb : NonNegInv b) : NonNegInv b' := by
  cases op with
  | create name balance =>
    simp only [step] at h
    unfold doCreate at h
    split at h
    · cases h
    next b'' acct hc =>
      cases h
      obtain ⟨hpos, hnone, hn, hacct, hb'⟩ := createAccount_ok hc
      subst hb' hacct
      intro p hp
      simp only [List.mem_append, List.mem_singleton] at hp
      rcases hp with hp | hp
      · exact hb p hp
      · subst hp
        simpa using le_of_lt hpos
  | deposit key amount =>
    simp only [step] at h
    obtain ⟨a, ha, hpos, hb'⟩ := doDeposit_ok h
    subst hb'
    intro p hp
    simp only [] at hp
    rcases mem_modifyAt hp with hp | ⟨a', ha', rfl⟩
    · exact hb p hp
    · rw [ha] at ha'
      cases ha'
      have h0 := hb (key, a) (mem_of_lookup ha)
      simp only [] at h0 ⊢
      positivity
  | withdraw key amount =>
    simp only [step] at h
    obtain ⟨a, ha, hpos, hsuf, hb'⟩ := doWithdraw_ok h
    subst hb'
    intro p hp
    simp only [] at hp
    rcases mem_modifyAt hp with hp | ⟨a', ha', rfl⟩
    · exact hb p hp
    · rw [ha] at ha'
      cases ha'
      simp only []
      linarith
  | transfer key recipient amount =>
    simp only [step] at h
    obtain ⟨sender, hs, hpos, hsuf, hcase⟩ := doTransfer_ok h
    rcases hcase with ⟨hname, rfl⟩ | ⟨hname, hrsome, hb'⟩
    · exact hb
    · subst hb'
      intro p hp
      simp only [transferAccounts] at hp
      have hmid : ∀ q ∈ (modifyAt b.accounts key
          fun s => { s with balance := s.balance - amount }), 0 ≤ q.2.balance := by
        intro q hq
        rcases mem_modifyAt hq with hq | ⟨a', ha', rfl⟩
        · exact hb q hq
        · rw [hs] at ha'
          cases ha'
          simp only []
          linarith
      rcases mem_modifyAt hp with hp | ⟨a', ha', rfl⟩
      · exact hmid p hp
      · have h0 := hmid (recipient, a') (mem_of_lookup ha')
        simp only [AccountImpl.receiveTransfer] at h0 ⊢
        linarith

theorem runSkip_nonneg {ops : List Op} {b : BankImpl} (hb : NonNegInv b) :
    NonNegInv (runSkip b ops) := by
  induction ops generalizing b with
  | nil => exact hb
  | cons op ops ih =>
    unfold runSkip
    split
    next b' h => exact ih (step_nonneg h hb)
    next e h => exact ih hb

/-! ## The claims -/

/-- C1: for every sequence of successful operations (createAccount, deposit,
withdraw, transfer) starting from a fresh bank, the ledger's `totalBalance`
equals the sum of the balances of all accounts in its registry; since every
point between operations is the final state of such a sequence (a prefix),
the invariant holds at every observation point. -/
theorem c1_totalBalance_eq_sum {ops : List Op} {b' : BankImpl}
    (h : run initBank ops = .ok b') : b'.totalBalance = sumBal b'.accounts :=
  run_total h rfl

/-- Witness for C1: scenario A of the spec, run concretely. -/
theorem c1_witness :
    run initBank [Op.create "Erin" 50, Op.create "Paul" 20, Op.deposit "Erin" 30,
        Op.transfer "Erin" "Paul" 25, Op.withdraw "Paul" 30] =
      .ok { accounts := [("Erin", { name := "Erin", balance := 55 }),
                         ("Paul", { name := "Paul", balance := 15 })],
            totalBalance := 70 } ∧
    (70 : ℚ) = sumBal [("Erin", { name := "Erin", balance := 55 }),
                       ("Paul", { name := "Paul", balance := 15 })] := by
  have hrun : run initBank [Op.create "Erin" 50, Op.create "Paul" 20,
      Op.deposit "Erin" 30, Op.transfer "Erin" "Paul" 25, Op.withdraw "Paul" 30] =
      .ok { accounts := [("Erin", { name := "Erin", balance := 55 }),
                         ("Paul", { name := "Paul", balance := 15 })],
            totalBalance := 70 } := by
    norm_num [run, step, doCreate, doDeposit, doWithdraw, doTransfer,
      BankImpl.createAccount, AccountImpl.make, AccountImpl.deposit,
      AccountImpl.withdraw, AccountImpl.receiveTransfer, BankImpl.deposit,
      BankImpl.withdraw, BankImpl.getAccountByName, validateAmount, modifyAt,
      transferAccounts, initBank, List.lookup,
      show jsTrim "Erin" = "Erin" from by decide,
      show jsTrim "Paul" = "Paul" from by decide,
      show "Erin".length = 4 from rfl, show "Paul".length = 4 from rfl,
      show ("Paul" == "Erin") = false from by decide,
      show ("Erin" == "Paul") = false from by decide,
      show ("Erin" == "Erin") = true from by decide,
      show ("Paul" == "Paul") = true from by decide,
      show ¬ ("Erin" = "Paul") from by decide,
      show ¬ ("Paul" = "Erin") from by decide]
  exact ⟨hrun, c1_totalBalance_eq_sum hrun⟩

/-- C2: along every sequence of operations, successful or failing (a failing
operation leaves the state unchanged), every registered account balance is
non-negative; as every observation point is reached by such a sequence, no
operation ever drives a balance negative. -/
theorem c2_balance_nonneg (ops : List Op) :
    ∀ p ∈ (runSkip initBank ops).accounts, 0 ≤ p.2.balance :=
  runSkip_nonneg fun p hp => absurd hp (by simp [initBank])

/-- Witness for C2: a run containing a failing withdrawal (70 from 50) that
is skipped, then a successful withdrawal to a non-negative balance. -/
theorem c2_witness :
    ("Erin", ({ name := "Erin", balance := 30 } : AccountImpl)) ∈
      (runSkip initBank [Op.create "Erin" 50, Op.withdraw "Erin" 70,
        Op.withdraw "Erin" 20]).accounts ∧
    (0 : ℚ) ≤ ({ name := "Erin", balance := 30 } : AccountImpl).balance := by
  have hrun : runSkip initBank [Op.create "Erin" 50, Op.withdraw "Erin" 70,
      Op.withdraw "Erin" 20] =
      { accounts := [("Erin", { name := "Erin", balance := 30 })],
        totalBalance := 30 } := by
    norm_num [runSkip, step, doCreate, doDeposit, doWithdraw, doTransfer,
      BankImpl.createAccount, AccountImpl.make, AccountImpl.deposit,
      AccountImpl.withdraw, BankImpl.deposit, BankImpl.withdraw, validateAmount,
      modifyAt, initBank, List.lookup,
      show jsTrim "Erin" = "Erin" from by decide,
      show "Erin".length = 4 from rfl,
      show ("Erin" == "Erin") = true from by decide]
  have hmem : ("Erin", ({ name := "Erin", balance := 30 } : AccountImpl)) ∈
      (runSkip initBank [Op.create "Erin" 50, Op.withdraw "Erin" 70,
        Op.withdraw "Erin" 20]).accounts := by
    rw [hrun]
    decide
  exact ⟨hmem, c2_balance_nonneg _ _ hmem⟩

/-- Counterexample to C3 as stated: `NaN` and `+∞` are not positive finite
numbers, yet the validation helper does not raise `InvalidAmount` on them —
an IEEE-754 comparison with `NaN` is false, and `+∞ <= 0` is false, so
`if (amount <= 0)` does not fire. -/
theorem c3_counterexample :
    validateAmountNum JSNum.nan = .ok () ∧
      validateAmountNum JSNum.posInf = .ok () :=
  ⟨rfl, rfl⟩

/-- C3 (amended): the validation helper raises `InvalidAmount` exactly when
the amount compares `<= 0` under the IEEE-754 comparison: zero, negative
finite amounts and `-∞` fail; every finite amount strictly greater than `0`
passes, and `NaN` and `+∞` also pass. -/
theorem c3_validateAmount_char (x : JSNum) :
    (validateAmountNum x = .error .invalidAmount ↔
      (x = JSNum.negInf ∨ ∃ q, x = JSNum.finite q ∧ q ≤ 0)) ∧
    (validateAmountNum x = .ok () ↔
      (x = JSNum.nan ∨ x = JSNum.posInf ∨ ∃ q, x = JSNum.finite q ∧ 0 < q)) := by
  cases x with
  | nan => simp [validateAmountNum, JSNum.leZero]
  | posInf => simp [validateAmountNum, JSNum.leZero]
  | negInf => simp [validateAmountNum, JSNum.leZero]
  | finite q =>
    by_cases hq : q ≤ 0
    · refine ⟨?_, ?_⟩
      · simp only [validateAmountNum, JSNum.leZero, hq, decide_True, if_true, true_iff]
        exact Or.inr ⟨q, rfl, hq⟩
      · simp only [validateAmountNum, JSNum.leZero, hq, decide_True, if_true]
        constructor
        · intro h
          cases h
        · rintro (h | h | ⟨q₁, hq₁, hlt⟩)
          · cases h
          · cases h
          · cases hq₁
            exact absurd hlt (not_lt.mpr hq)
    · refine ⟨?_, ?_⟩
      · simp only [validateAmountNum, JSNum.leZero, hq, decide_False,
          Bool.false_eq_true, if_false]
        constructor
        · intro h
          cases h
        · rintro (h | ⟨q₁, hq₁, hle⟩)
          · cases h
          · cases hq₁
            exact absurd hle hq
      · simp only [validateAmountNum, JSNum.leZero, hq, decide_False,
          Bool.false_eq_true, if_false, true_iff]
        exact Or.inr (Or.inr ⟨q, rfl, not_le.mp hq⟩)

/-- Counterexample to C4 as stated: with "Erin" existing, creating " Erin "
— whose trimmed name equals the trimmed name of the existing account — does
not fail with `NameAlreadyExists`: it succeeds, because both the collision
check and the registry key use the untrimmed name. -/
theorem c4_counterexample :
    jsTrim " Erin " = jsTrim "Erin" ∧
    initBank.createAccount "Erin" 50 =
      .ok ({ accounts := [("Erin", { name := "Erin", balance := 50 })],
             totalBalance := 50 }, { name := "Erin", balance := 50 }) ∧
    ({ accounts := [("Erin", { name := "Erin", balance := 50 })],
       totalBalance := 50 } : BankImpl).createAccount " Erin " 30 =
      .ok ({ accounts := [("Erin", { name := "Erin", balance := 50 }),
                          (" Erin ", { name := "Erin", balance := 30 })],
             totalBalance := 80 }, { name := "Erin", balance := 30 }) := by
  refine ⟨by decide, ?_, ?_⟩ <;>
    norm_num [BankImpl.createAccount, AccountImpl.make, validateAmount, initBank,
      List.lookup, show jsTrim "Erin" = "Erin" from by decide,
      show jsTrim " Erin " = "Erin" from by decide,
      show "Erin".length = 4 from rfl, show " Erin ".length = 6 from rfl,
      show (" Erin " == "Erin") = false from by decide]

/-- C4 (amended): for a valid balance, a second `createAccount` fails with
`NameAlreadyExists` iff its exact, untrimmed name is already a key of the
registry (equality of the trimmed forms is neither necessary nor
sufficient); the check precedes account construction, and on failure no new
state is produced. -/
theorem c4_name_conflict {b : BankImpl} {name : String} {balance : ℚ}
    (hpos : 0 < balance) :
    (b.createAccount name balance = .error .nameAlreadyExists ↔
      (b.accounts.lookup name).isSome = true) := by
  unfold BankImpl.createAccount
  rw [validateAmount_of_pos hpos]
  by_cases hs : (b.accounts.lookup name).isSome
  · simp [hs]
  · simp only [hs, Bool.false_eq_true, if_false, iff_false]
    unfold AccountImpl.make
    rw [validateAmount_of_pos hpos]
    by_cases hn : name.length = 0 <;> simp [hn]

/-- Witness for C4 (amended): creating "Erin" again in a bank that holds
"Erin" reports `NameAlreadyExists`, per the characterisation. -/
theorem c4_witness :
    (0 : ℚ) < 30 ∧
    (({ accounts := [("Erin", { name := "Erin", balance := 50 })],
        totalBalance := 50 } : BankImpl).createAccount "Erin" 30 =
        .error .nameAlreadyExists ↔
      ((List.lookup "Erin"
        [("Erin", ({ name := "Erin", balance := 50 } : AccountImpl))]).isSome = true)) :=
  ⟨by decide, c4_name_conflict (by decide)⟩

/-- C5, divergence in the code: the constructor checks `name.length === 0`
on the *untrimmed* name, so a whitespace-only name is accepted:
`createAccount " " 50` succeeds and stores an account whose name trims to
the empty string — only the literally empty name fails with `InvalidName`.
The README states the intended validation: "trimming the input and ensuring
that the resulting name isn't empty". -/
theorem c5_whitespace_name_accepted :
    jsTrim " " = "" ∧
    initBank.createAccount " " 50 =
      .ok ({ accounts := [(" ", { name := "", balance := 50 })],
             totalBalance := 50 }, { name := "", balance := 50 }) ∧
    initBank.createAccount "" 50 = .error .invalidName := by
  refine ⟨by decide, ?_, ?_⟩ <;>
    norm_num [BankImpl.createAccount, AccountImpl.make, validateAmount, initBank,
      List.lookup, show jsTrim " " = "" from by decide,
      show " ".length = 1 from rfl, show "".length = 0 from rfl]

/-- C6: for an account with a valid (positive) balance, withdrawing exactly
the balance succeeds and leaves the balance exactly `0`; withdrawing any
strictly larger amount fails with `InsufficientBalance`; and the same
boundary holds for transfer to a resolvable recipient other than the
account itself (an excess amount fails with `InsufficientBalance` for any
recipient, the check preceding resolution). -/
theorem c6_exact_balance_boundary {b : BankImpl} {key : String}
    {a : AccountImpl} (ha : b.accounts.lookup key = some a)
    (hpos : 0 < a.balance) :
    (doWithdraw b key a.balance =
      .ok { accounts := modifyAt b.accounts key fun _ => { a with balance := 0 },
            totalBalance := b.totalBalance - a.balance }) ∧
    (∀ amt, a.balance < amt →
      doWithdraw b key amt = .error .insufficientBalance) ∧
    (∀ recipient, recipient ≠ a.name → recipient ≠ key →
      (b.accounts.lookup recipient).isSome →
      doTransfer b key recipient a.balance =
        .ok { b with
              accounts := transferAccounts b.accounts key recipient a.balance } ∧
      (transferAccounts b.accounts key recipient a.balance).lookup key =
        some { a with balance := 0 }) ∧
    (∀ recipient amt, a.balance < amt →
      doTransfer b key recipient amt = .error .insufficientBalance) := by
  refine ⟨?_, ?_, ?_, ?_⟩
  · simp [doWithdraw, ha, AccountImpl.withdraw, BankImpl.withdraw,
      validateAmount_of_pos hpos, lt_self_iff_false, sub_self]
  · intro amt hamt
    have hposamt : 0 < amt := lt_trans hpos hamt
    simp [doWithdraw, ha, AccountImpl.withdraw, validateAmount_of_pos hposamt, hamt]
  · intro recipient hrn hrk hrsome
    obtain ⟨ra, hra⟩ := Option.isSome_iff_exists.mp hrsome
    constructor
    · simp [doTransfer, ha, validateAmount_of_pos hpos, lt_self_iff_false,
        BankImpl.getAccountByName, hra, Ne.symm hrn]
    · unfold transferAccounts
      rw [lookup_modifyAt_ne _ (Ne.symm hrk), lookup_modifyAt_self _ ha]
      simp [sub_self]
  · intro recipient amt hamt
    have hposamt : 0 < amt := lt_trans hpos hamt
    simp [doTransfer, ha, validateAmount_of_pos hposamt, hamt]

/-- Witness for C6: Erin holds 50; withdrawing 50 zeroes the balance,
withdrawing 70 fails, transferring 50 to Paul zeroes the balance, and
transferring 70 fails. -/
theorem c6_witness :
    (doWithdraw { accounts := [("Erin", { name := "Erin", balance := 50 }),
                               ("Paul", { name := "Paul", balance := 20 })],
                  totalBalance := 70 } "Erin" 50 =
      .ok { accounts := modifyAt [("Erin", { name := "Erin", balance := 50 }),
                                  ("Paul", { name := "Paul", balance := 20 })]
              "Erin" fun _ => { name := "Erin", balance := 0 },
            totalBalance := 70 - 50 }) ∧
    (doWithdraw { accounts := [("Erin", { name := "Erin", balance := 50 }),
                               ("Paul", { name := "Paul", balance := 20 })],
                  totalBalance := 70 } "Erin" 70 = .error .insufficientBalance) ∧
    ((transferAccounts [("Erin", { name := "Erin", balance := 50 }),
                        ("Paul", { name := "Paul", balance := 20 })]
        "Erin" "Paul" 50).lookup "Erin" = some { name := "Erin", balance := 0 }) ∧
    (doTransfer { accounts := [("Erin", { name := "Erin", balance := 50 }),
                               ("Paul", { name := "Paul", balance := 20 })],
                  totalBalance := 70 } "Erin" "Paul" 70 =
      .error .insufficientBalance) := by
  have h := @c6_exact_balance_boundary
    ⟨[("Erin", ⟨"Erin", 50⟩), ("Paul", ⟨"Paul", 20⟩)], 70⟩ "Erin" ⟨"Erin", 50⟩
    (by decide) (by decide)
  exact ⟨h.1, h.2.1 70 (by decide),
    (h.2.2.1 "Paul" (by decide) (by decide) (by decide)).2,
    h.2.2.2 "Paul" 70 (by decide)⟩

/-- C7: a transfer with a valid, sufficiently funded amount addressed to a
recipient name that maps to no account fails with `MissingAccount`, and the
observable state after the failed operation — every balance, the registry,
and the total — is the unchanged bank. -/
theorem c7_missing_recipient {b : BankImpl} {key recipient : String}
    {a : AccountImpl} {amount : ℚ} (ha : b.accounts.lookup key = some a)
    (hpos : 0 < amount) (hsuf : amount ≤ a.balance)
    (hrn : recipient ≠ a.name) (hmiss : b.accounts.lookup recipient = none) :
    doTransfer b key recipient amount = .error .missingAccount ∧
    runSkip b [Op.transfer key recipient amount] = b := by
  have h1 : doTransfer b key recipient amount = .error .missingAccount := by
    simp [doTransfer, ha, validateAmount_of_pos hpos, not_lt.mpr hsuf,
      BankImpl.getAccountByName, hmiss, Ne.symm hrn]
  exact ⟨h1, by simp [runSkip, step, h1]⟩

/-- Witness for C7: scenario D — Erin holds 50 and transfers 20 to
"John Doe", who has no account; the transfer reports `MissingAccount` and
the bank is unchanged. -/
theorem c7_witness :
    doTransfer { accounts := [("Erin", { name := "Erin", balance := 50 })],
                 totalBalance := 50 } "Erin" "John Doe" 20 =
      .error .missingAccount ∧
    runSkip { accounts := [("Erin", { name := "Erin", balance := 50 })],
              totalBalance := 50 } [Op.transfer "Erin" "John Doe" 20] =
      { accounts := [("Erin", { name := "Erin", balance := 50 })],
        totalBalance := 50 } :=
  @c7_missing_recipient ⟨[("Erin", ⟨"Erin", 50⟩)], 50⟩ "Erin" "John Doe"
    ⟨"Erin", 50⟩ 20 (by decide) (by decide) (by decide) (by decide) (by decide)

/-- C8: a transfer whose recipient string equals the account's own stored
(trimmed) name, for any valid amount not exceeding the balance, is a no-op:
no error is raised and the returned bank — every account balance and the
total — is exactly the input bank. -/
theorem c8_self_transfer_noop {b : BankImpl} {key : String} {a : AccountImpl}
    {amount : ℚ} (ha : b.accounts.lookup key = some a) (hpos : 0 < amount)
    (hsuf : amount ≤ a.balance) :
    doTransfer b key a.name amount = .ok b := by
  simp [doTransfer, ha, validateAmount_of_pos hpos, not_lt.mpr hsuf]

/-- Witness for C8: Erin transfers 20 to "Erin"; nothing changes and no
error is raised. -/
theorem c8_witness :
    doTransfer { accounts := [("Erin", { name := "Erin", balance := 50 })],
                 totalBalance := 50 } "Erin" "Erin" 20 =
      .ok { accounts := [("Erin", { name := "Erin", balance := 50 })],
            totalBalance := 50 } :=
  @c8_self_transfer_noop ⟨[("Erin", ⟨"Erin", 50⟩)], 50⟩ "Erin" ⟨"Erin", 50⟩ 20
    (by decide) (by decide) (by decide)

/-- C9: a successful transfer between two distinct accounts decreases the
sender's balance by the amount, increases the recipient's balance by the
same amount, and leaves the ledger's `totalBalance` exactly unchanged (no
aggregate notification occurs). -/
theorem c9_transfer_moves_money {b : BankImpl} {s recipient : String}
    {sa ra : AccountImpl} {amount : ℚ}
    (hs : b.accounts.lookup s = some sa)
    (hr : b.accounts.lookup recipient = some ra)
    (hner : recipient ≠ s) (hname : recipient ≠ sa.name)
    (hpos : 0 < amount) (hsuf : amount ≤ sa.balance) :
    doTransfer b s recipient amount =
      .ok { b with accounts := transferAccounts b.accounts s recipient amount } ∧
    (transferAccounts b.accounts s recipient amount).lookup s =
      some { sa with balance := sa.balance - amount } ∧
    (transferAccounts b.accounts s recipient amount).lookup recipient =
      some { ra with balance := ra.balance + amount } ∧
    ({ b with accounts := transferAccounts b.accounts s recipient amount }
        : BankImpl).totalBalance = b.totalBalance := by
  refine ⟨?_, ?_, ?_, rfl⟩
  · simp [doTransfer, hs, validateAmount_of_pos hpos, not_lt.mpr hsuf,
      BankImpl.getAccountByName, hr, Ne.symm hname]
  · unfold transferAccounts
    rw [lookup_modifyAt_ne _ (Ne.symm hner), lookup_modifyAt_self _ hs]
  · unfold transferAccounts
    have hmid : (modifyAt b.accounts s
        fun x => { x with balance := x.balance - amount }).lookup recipient =
        some ra := by
      rw [lookup_modifyAt_ne _ hner]
      exact hr
    rw [lookup_modifyAt_self _ hmid]
    simp [AccountImpl.receiveTransfer]

/-- Witness for C9: Erin (50) transfers 25 to Paul (20): Erin ends at 25,
Paul at 45, and the total balance 70 is untouched. -/
theorem c9_witness :
    doTransfer { accounts := [("Erin", { name := "Erin", balance := 50 }),
                              ("Paul", { name := "Paul", balance := 20 })],
                 totalBalance := 70 } "Erin" "Paul" 25 =
      .ok { accounts := transferAccounts
              [("Erin", { name := "Erin", balance := 50 }),
               ("Paul", { name := "Paul", balance := 20 })] "Erin" "Paul" 25,
            totalBalance := 70 } ∧
    (transferAccounts [("Erin", { name := "Erin", balance := 50 }),
                       ("Paul", { name := "Paul", balance := 20 })]
        "Erin" "Paul" 25).lookup "Erin" =
      some { name := "Erin", balance := 50 - 25 } ∧
    (transferAccounts [("Erin", { name := "Erin", balance := 50 }),
                       ("Paul", { name := "Paul", balance := 20 })]
        "Erin" "Paul" 25).lookup "Paul" =
      some { name := "Paul", balance := 20 + 25 } := by
  have h := @c9_transfer_moves_money
    ⟨[("Erin", ⟨"Erin", 50⟩), ("Paul", ⟨"Paul", 20⟩)], 70⟩ "Erin" "Paul"
    ⟨"Erin", 50⟩ ⟨"Paul", 20⟩ 25
    (by decide) (by decide) (by decide) (by decide) (by decide) (by decide)
  exact ⟨h.1, h.2.1, h.2.2.1⟩

theorem lookup_append_of_none {l₁ l₂ : List (String × AccountImpl)} {k : String}
    (h : l₁.lookup k = none) : (l₁ ++ l₂).lookup k = l₂.lookup k := by
  induction l₁ with
  | nil => simp
  | cons p rest ih =>
    obtain ⟨k₁, a₁⟩ := p
    by_cases heq : k₁ = k
    · subst heq
      simp only [List.lookup, beq_self_eq_true] at h
      cases h
    · have h2 : (k == k₁) = false := beq_eq_false_iff_ne.mpr (Ne.symm heq)
      simp only [List.lookup, h2] at h
      simp only [List.cons_append, List.lookup, h2]
      exact ih h

theorem lookup_append_of_some {l₁ l₂ : List (String × AccountImpl)} {k : String}
    {a : AccountImpl} (h : l₁.lookup k = some a) :
    (l₁ ++ l₂).lookup k = some a := by
  induction l₁ with
  | nil => simp [List.lookup] at h
  | cons p rest ih =>
    obtain ⟨k₁, a₁⟩ := p
    by_cases heq : k₁ = k
    · subst heq
      simp only [List.lookup, beq_self_eq_true] at h
      simpa only [List.cons_append, List.lookup, beq_self_eq_true] using h
    · have h2 : (k == k₁) = false := beq_eq_false_iff_ne.mpr (Ne.symm heq)
      simp only [List.lookup, h2] at h
      simp only [List.cons_append, List.lookup, h2]
      exact ih h

theorem eq_empty_of_length_eq_zero {t : String} (h : t.length = 0) : t = "" := by
  cases t with
  | mk data =>
    cases data
    · rfl
    · simp [String.length] at h

/-- C10 (implicit): an account created with a name carrying surrounding
whitespace (non-empty after trimming) is registered under the original,
untrimmed string while the account object stores the trimmed name; a
transfer from another account addressed to the trimmed form — which matches
no registry key — fails with `MissingAccount`, while one addressed to the
exact untrimmed string succeeds. -/
theorem c10_untrimmed_registry_key {b : BankImpl} {name s : String}
    {sa : AccountImpl} {bal0 amount : ℚ}
    (hws : jsTrim name ≠ name) (hnz : jsTrim name ≠ "")
    (hfree : b.accounts.lookup name = none)
    (hfreet : b.accounts.lookup (jsTrim name) = none)
    (hs : b.accounts.lookup s = some sa)
    (hsname1 : sa.name ≠ name) (hsname2 : sa.name ≠ jsTrim name)
    (hbal : 0 < bal0) (hpos : 0 < amount) (hsuf : amount ≤ sa.balance) :
    b.createAccount name bal0 =
      .ok ({ accounts :=
               b.accounts ++ [(name, { name := jsTrim name, balance := bal0 })],
             totalBalance := b.totalBalance + bal0 },
           { name := jsTrim name, balance := bal0 }) ∧
    (b.accounts ++
        [(name, ({ name := jsTrim name, balance := bal0 } : AccountImpl))]).lookup
        name = some { name := jsTrim name, balance := bal0 } ∧
    doTransfer
        { accounts :=
            b.accounts ++ [(name, { name := jsTrim name, balance := bal0 })],
          totalBalance := b.totalBalance + bal0 } s (jsTrim name) amount =
      .error .missingAccount ∧
    doTransfer
        { accounts :=
            b.accounts ++ [(name, { name := jsTrim name, balance := bal0 })],
          totalBalance := b.totalBalance + bal0 } s name amount =
      .ok { accounts :=
              transferAccounts
                (b.accounts ++ [(name, { name := jsTrim name, balance := bal0 })])
                s name amount,
            totalBalance := b.totalBalance + bal0 } := by
  have hne : name ≠ "" := by
    intro h
    subst h
    exact hws rfl
  have hlen : name.length ≠ 0 := fun h => hne (eq_empty_of_length_eq_zero h)
  have h2 : (b.accounts ++
      [(name, ({ name := jsTrim name, balance := bal0 } : AccountImpl))]).lookup name =
      some { name := jsTrim name, balance := bal0 } := by
    rw [lookup_append_of_none hfree]
    simp [List.lookup]
  have hsl : (b.accounts ++
      [(name, ({ name := jsTrim name, balance := bal0 } : AccountImpl))]).lookup s =
      some sa :=
    lookup_append_of_some hs
  have h3t : (b.accounts ++
      [(name, ({ name := jsTrim name, balance := bal0 } : AccountImpl))]).lookup
      (jsTrim name) = none := by
    rw [lookup_append_of_none hfreet]
    have hb : (jsTrim name == name) = false := beq_eq_false_iff_ne.mpr hws
    simp [List.lookup, hb]
  refine ⟨?_, h2, ?_, ?_⟩
  · simp [BankImpl.createAccount, validateAmount_of_pos hbal, hfree,
      AccountImpl.make, hlen]
  · simp [doTransfer, hsl, validateAmount_of_pos hpos, not_lt.mpr hsuf,
      BankImpl.getAccountByName, h3t, hsname2]
  · simp [doTransfer, hsl, validateAmount_of_pos hpos, not_lt.mpr hsuf,
      BankImpl.getAccountByName, h2, hsname1]

/-- Witness for C10: in a bank holding "Alice", create " Bob " (whitespace
around a non-empty core); it is registered under " Bob " with stored name
"Bob"; Alice's transfer to "Bob" reports `MissingAccount`, while her
transfer to " Bob " succeeds. -/
theorem c10_witness :
    (({ accounts := [("Alice", { name := "Alice", balance := 50 })],
        totalBalance := 50 } : BankImpl).createAccount " Bob " 30 =
      .ok ({ accounts := [("Alice", { name := "Alice", balance := 50 }),
                          (" Bob ", { name := "Bob", balance := 30 })],
             totalBalance := 50 + 30 },
           { name := "Bob", balance := 30 })) ∧
    ([("Alice", ({ name := "Alice", balance := 50 } : AccountImpl)),
      (" Bob ", { name := "Bob", balance := 30 })].lookup " Bob " =
      some { name := "Bob", balance := 30 }) ∧
    (doTransfer { accounts := [("Alice", { name := "Alice", balance := 50 }),
                               (" Bob ", { name := "Bob", balance := 30 })],
                  totalBalance := 50 + 30 } "Alice" "Bob" 20 =
      .error .missingAccount) ∧
    (doTransfer { accounts := [("Alice", { name := "Alice", balance := 50 }),
                               (" Bob ", { name := "Bob", balance := 30 })],
                  totalBalance := 50 + 30 } "Alice" " Bob " 20 =
      .ok { accounts := transferAccounts
              [("Alice", { name := "Alice", balance := 50 }),
               (" Bob ", { name := "Bob", balance := 30 })] "Alice" " Bob " 20,
            totalBalance := 50 + 30 }) := by
  have h := @c10_untrimmed_registry_key
    ⟨[("Alice", ⟨"Alice", 50⟩)], 50⟩ " Bob " "Alice" ⟨"Alice", 50⟩ 30 20
    (by decide) (by decide) (by decide) (by decide) (by decide) (by decide)
    (by decide) (by decide) (by decide) (by decide)
  exact ⟨h.1, h.2.1, h.2.2.1, h.2.2.2⟩
